import Mathlib

/-!
# Verification of the flexify asset-metadata cache (shallow embedding)

This file embeds the metadata-cache reconciliation logic of `src/main.py`
(the flexify asset API) into Lean and proves the specified properties of it.

The embedding is shallow:

* The filesystem state observed by one reconciliation pass is a plain value:
  for the wallpapers collection, the list of files each subfolder scan
  (`os.walk`) yields; for the widgets collection, the list of directories the
  walk yields together with each directory's immediate files and their
  modification times; for the klwp collection, the base directory's
  modification time and its entries.
* Image decoding (`PIL.Image.open/resize/convert/getdata`) is an external
  codec; a file's decodable content is modelled as `Option ImgData`, where
  `ImgData` carries the original width/height and the pixel samples obtained
  after the fixed `resize((100, 100)).convert("RGB")` step.  `none` models a
  file `PIL` cannot decode.
* Python dicts are modelled as association lists with `dictGet` lookup;
  building the dict in iteration order with distinct keys coincides with the
  dict contents.
* Modification times (`os.path.getmtime` floats) are modelled as `Int`;
  only equality and `max` ever matter to the code.
-/

namespace Flexify

/-! ## Association-list dictionaries (Python `dict`) -/

/-- Lookup in an association list: the model of Python `dict[key]` /
`key in dict`.  Returns the first binding of `k`. -/
def dictGet {β : Type} (k : String) : List (String × β) → Option β
  | [] => none
  | (k', v) :: rest => if k' = k then some v else dictGet k rest

/-- The keys of an association list. -/
def keysOf {β : Type} (l : List (String × β)) : List String :=
  l.map Prod.fst

/-! ## ColorSampler (`get_prominent_colors`) -/

/-- One RGB pixel sample as produced by `img.convert("RGB").getdata()`:
each channel is a byte. -/
structure RGB8 where
  r : Fin 256
  g : Fin 256
  b : Fin 256
deriving DecidableEq

/-- Decoded image data: original dimensions (used for the `resolution`
string) and the pixel samples obtained after `img.resize((100, 100))`
followed by `convert("RGB")` — the fixed 100×100 downsample, hence
10000 samples for any image `PIL` can open. -/
structure ImgData where
  width : Nat
  height : Nat
  pixels : List RGB8
deriving DecidableEq

/-- Lowercase hexadecimal digit, as produced by Python's `"{:02x}"` format. -/
def hexDigit (n : Nat) : Char :=
  if n < 10 then Char.ofNat (48 + n) else Char.ofNat (87 + n)

/-- Two-digit lowercase hexadecimal rendering of a byte (`"{:02x}".format`). -/
def toHex2 (n : Nat) : String :=
  String.mk [hexDigit (n / 16 % 16), hexDigit (n % 16)]

/-- `f"#{r:02x}{g:02x}{b:02x}"`. -/
def colorHex (c : RGB8) : String :=
  "#" ++ toHex2 c.r.val ++ toHex2 c.g.val ++ toHex2 c.b.val

/-- The distinct pixel values of `ps` in first-encounter order: the key order
of Python's insertion-ordered `Counter(pixels)` dict. -/
def firstOccs : List RGB8 → List RGB8
  | [] => []
  | c :: cs => c :: (firstOccs cs).filter (fun d => d ≠ c)

/-- The items of `Counter(pixels)`: each distinct pixel value, in
first-encounter order, paired with its total multiplicity. -/
def counterItems (ps : List RGB8) : List (RGB8 × Nat) :=
  (firstOccs ps).map (fun c => (c, ps.count c))

/-- The frequency-descending order used by `Counter.most_common`:
`p` may precede `q` when `q`'s count is at most `p`'s. -/
def freqGE (p q : RGB8 × Nat) : Prop := q.2 ≤ p.2

instance : DecidableRel freqGE := fun p q => inferInstanceAs (Decidable (q.2 ≤ p.2))

instance : IsTotal (RGB8 × Nat) freqGE := by
  constructor
  intro p q
  unfold freqGE
  exact Nat.le_total q.2 p.2

instance : IsTrans (RGB8 × Nat) freqGE := ⟨fun _ _ _ h h' => le_trans h' h⟩

/-- `Counter(pixels).most_common()` without the cutoff: the counter items
stably sorted by descending count (`heapq.nlargest` is documented as
`sorted(items, key=count, reverse=True)`, which is a stable descending
sort). -/
def rankedColors (ps : List RGB8) : List (RGB8 × Nat) :=
  List.insertionSort freqGE (counterItems ps)

/-- `Counter(pixels).most_common(n)`. -/
def mostCommon (n : Nat) (ps : List RGB8) : List (RGB8 × Nat) :=
  (rankedColors ps).take n

/-- `get_prominent_colors` of `src/main.py`: on a decodable image, the
`num_colors` most frequent pixel values of the downsampled image rendered as
`#rrggbb`; on any failure (`except Exception`), the fallback `["#000000"]`. -/
def get_prominent_colors (image : Option ImgData) (num_colors : Nat := 5) :
    List String :=
  match image with
  | none => ["#000000"]
  | some d => (mostCommon num_colors d.pixels).map (fun p => colorHex p.1)

/-! ## Wallpapers collection (per-file strategy) -/

/-- One file yielded by `os.walk` over a wallpaper subfolder:
`dir` is the list of directory components of its path relative to the
subfolder (so `relative_path = dir.../fname`), `fname` the basename,
`mtime` its `os.path.getmtime`, `fsize` its `os.path.getsize`, and
`image` its decodable content (`none` when `PIL` cannot open it). -/
structure WFile where
  dir : List String
  fname : String
  mtime : Int
  fsize : Nat
  image : Option ImgData
deriving DecidableEq

/-- `ASSET_PATHS["wallpapers"]["file_types"]`. -/
def wallpaperFileTypes : List String := [".png", ".jpg", ".jpeg", ".gif"]

/-- Python's `str.endswith(suffix)`, over the character lists. -/
def strEndsWith (s suffix : String) : Bool :=
  suffix.data.isSuffixOf s.data

/-- Python's `file.endswith(tuple_of_suffixes)`. -/
def hasExt (exts : List String) (fname : String) : Bool :=
  exts.any (fun e => strEndsWith fname e)

/-- `relative_path = os.path.relpath(file_path, folder)` for a walked file. -/
def relPath (f : WFile) : String :=
  String.intercalate "/" (f.dir ++ [f.fname])

/-- `cache_key = f"{subfolder}/{relative_path}"`. -/
def wallKey (subfolder : String) (f : WFile) : String :=
  subfolder ++ "/" ++ relPath f

/-- The wallpapers filesystem as the scan observes it: for each configured
subfolder (`"hq"`, `"mid"`) in order, `none` when
`os.path.exists(folder)` is false (the scan skips it), else the files the
walk yields. -/
abbrev WallFS : Type := List (String × Option (List WFile))

/-- The scan loop of `update_wallpaper_cache`: every existing subfolder's
walked files with an accepted extension, tagged with their subfolder, in
iteration order. -/
def scanWall : WallFS → List (String × WFile)
  | [] => []
  | (_, none) :: rest => scanWall rest
  | (sub, some files) :: rest =>
      (files.filter (fun f => hasExt wallpaperFileTypes f.fname)).map
        (fun f => (sub, f)) ++ scanWall rest

/-- A cached wallpaper record (one value of the `metadata_caches["wallpapers"]`
dict; `folder_type` embeds the Python field of that name). -/
structure WallRecord where
  name : String
  category : String
  resolution : String
  size : Nat
  colors : List String
  last_modified : Int
  folder_type : String
deriving DecidableEq

/-- The in-memory wallpapers cache: the dict `metadata_caches["wallpapers"]`. -/
abbrev WallCache : Type := List (String × WallRecord)

/-- `process_wallpaper` of `src/main.py`: builds the `(cache_key, record)`
pair for one file.  `category` is `os.path.dirname(relative_path)` with the
falsy-string default `"root"`; `resolution` is `f"{img.width}x{img.height}"`
when `PIL` opens the file and `"Unknown"` otherwise; `colors` comes from
`get_prominent_colors`.  The function is total: decode failure is absorbed
into the fallback values, never raised. -/
def process_wallpaper (subfolder : String) (f : WFile) : String × WallRecord :=
  (wallKey subfolder f,
   { name := f.fname
     category := if f.dir = [] then "root" else String.intercalate "/" f.dir
     resolution :=
       match f.image with
       | some d => toString d.width ++ "x" ++ toString d.height
       | none => "Unknown"
     size := f.fsize
     colors := get_prominent_colors f.image 5
     last_modified := f.mtime
     folder_type := subfolder })

/-- The cache test of the reconciliation loop: `some r` when
`cache_key in metadata_caches["wallpapers"]` and the cached record's
`last_modified` equals the file's current mtime (the record is then reused),
`none` when the file must be (re)processed. -/
def cacheHit (cache : WallCache) (subfolder : String) (f : WFile) :
    Option WallRecord :=
  match dictGet (wallKey subfolder f) cache with
  | some r => if r.last_modified = f.mtime then some r else none
  | none => none

/-- The `assets[cache_key] = cached record` insertions the loop performs for
cache hits, in scan order. -/
def keptEntries (cache : WallCache) (scanned : List (String × WFile)) :
    WallCache :=
  scanned.filterMap
    (fun p => (cacheHit cache p.1 p.2).map (fun r => (wallKey p.1 p.2, r)))

/-- The `tasks` list: the scanned files that miss the cache (new key or
changed timestamp) and are handed to `process_wallpaper`. -/
def staleEntries (cache : WallCache) (scanned : List (String × WFile)) :
    List (String × WFile) :=
  scanned.filter (fun p => (cacheHit cache p.1 p.2).isNone)

/-- The new `assets` dict: reused records inserted during the loop, followed
by the `asyncio.gather` results of the processed tasks. -/
def mkAssets (cache : WallCache) (scanned : List (String × WFile)) :
    WallCache :=
  keptEntries cache scanned ++
    (staleEntries cache scanned).map (fun p => process_wallpaper p.1 p.2)

/-- `update_wallpaper_cache` of `src/main.py`, as a function of the observed
filesystem and the prior in-memory cache.  Returns the new `assets` dict
(which the source assigns to `metadata_caches["wallpapers"]` and persists)
together with the list of cache keys whose files were handed to
`process_wallpaper` (the MetadataExtractor invocations of this pass).
With distinct scan keys the association list `mkAssets` is exactly the
final dict contents. -/
def update_wallpaper_cache (cache : WallCache) (fs : WallFS) :
    WallCache × List String :=
  (mkAssets cache (scanWall fs),
   (staleEntries cache (scanWall fs)).map (fun p => wallKey p.1 p.2))

/-- The cache keys of the current scan result. -/
def scanKeys (fs : WallFS) : List String :=
  (scanWall fs).map (fun p => wallKey p.1 p.2)

/-! ## Widgets collection (per-directory strategy) -/

/-- One directory yielded by `os.walk(base_folder)` for the widgets
collection: `cat` is `os.path.relpath(root, base_folder)` (`"."` for the
base directory itself) and `files` its immediate files as
`(filename, getmtime)` pairs.  `cat` stands in for the absolute `root`
path that keys the source's `last_modified` dict — the two determine each
other given the base path. -/
structure WDir where
  cat : String
  files : List (String × Int)
deriving DecidableEq

/-- The widgets filesystem as observed: `none` when
`os.path.exists(base_folder)` fails, else the walked directories in walk
order (the base directory first, `cat = "."`). -/
abbrev WidgetFS : Type := Option (List WDir)

/-- A widget listing record; `ftype` embeds the Python `type` field. -/
structure WidgetRec where
  name : String
  category : String
  ftype : String
deriving DecidableEq

/-- The in-memory widgets cache `metadata_caches["widgets"]`: `none` models
the empty dict `{}` (no `"widgets"`/`"last_modified"` keys yet), `some`
the dict `{"widgets": list, "last_modified": per-directory map}`. -/
abbrev WidgetCache : Type := Option (List WidgetRec × List (String × Int))

/-- `max([getmtime(f) for f in files] if files else [0])`: the maximum
modification time among a directory's immediate files, `0` for an empty
directory. -/
def maxMtime (files : List (String × Int)) : Int :=
  match files with
  | [] => 0
  | f :: rest => (rest.map Prod.snd).foldl max f.2

/-- The `last_modified` per-directory map computed by the first walk of
`update_widget_cache`, in walk order. -/
def lmMap (dirs : List WDir) : List (String × Int) :=
  dirs.map (fun d => (d.cat, maxMtime d.files))

/-- The validity check of `update_widget_cache`: runs only when the cache
dict has a `"last_modified"` key; every directory of the current map must be
present in the cached map with an equal timestamp.  Cached directories
absent from the current map are never examined. -/
def widgetCacheValid (cache : WidgetCache) (lm : List (String × Int)) : Bool :=
  match cache with
  | some (_, cachedLm) =>
      lm.all (fun pm => decide (dictGet pm.1 cachedLm = some pm.2))
  | none => false

/-- `ASSET_PATHS["widgets"]["file_types"]`. -/
def widgetFileTypes : List String := [".png", ".jpg", ".jpeg", ".gif", ".kwgt"]

/-- The record built for one widget file: `type` is `'kwgt'` exactly for a
`.kwgt` filename and `'image'` otherwise. -/
def mkWidgetRec (cat fname : String) : WidgetRec :=
  { name := fname
    category := cat
    ftype := if strEndsWith fname ".kwgt" then "kwgt" else "image" }

/-- The listing rebuild loop of `update_widget_cache`: walk the directories,
skip the base directory (`category == "."` triggers `continue`), and list
every accepted-extension file of the remaining directories. -/
def buildWidgetList : List WDir → List WidgetRec
  | [] => []
  | d :: rest =>
      (if d.cat = "." then []
       else (d.files.filter (fun nf => hasExt widgetFileTypes nf.1)).map
         (fun nf => mkWidgetRec d.cat nf.1)) ++ buildWidgetList rest

/-- `update_widget_cache` of `src/main.py` as a function of the observed
filesystem and prior cache.  Returns the new in-memory cache and whether a
full listing rebuild ran.  A missing base folder returns early leaving the
cache untouched; a valid per-directory timestamp map returns early reusing
the cached listing verbatim; otherwise the whole listing is rebuilt and
persisted together with the fresh map. -/
def update_widget_cache (cache : WidgetCache) (fs : WidgetFS) :
    WidgetCache × Bool :=
  match fs with
  | none => (cache, false)
  | some dirs =>
      let lm := lmMap dirs
      if widgetCacheValid cache lm then (cache, false)
      else (some (buildWidgetList dirs, lm), true)

/-- The `/widgets` handler `list_all_widgets`: reconcile, then read
`metadata_caches["widgets"]["widgets"]`.  On a cache dict without that key
(the empty dict) the subscript raises `KeyError`, modelled as `.error ()`.
Returns the listing and the post-reconciliation cache. -/
def list_all_widgets (cache : WidgetCache) (fs : WidgetFS) :
    Except Unit (List WidgetRec × WidgetCache) :=
  let c := (update_widget_cache cache fs).1
  match c with
  | some (l, lm) => .ok (l, some (l, lm))
  | none => .error ()

/-! ## KLWP collection (single-timestamp strategy) -/

/-- The klwp filesystem as observed: `none` when the base folder does not
exist; else the base directory's own `getmtime` and the `os.listdir`
entries. -/
structure KlwpDir where
  dirMtime : Int
  entries : List String
deriving DecidableEq

abbrev KlwpFS : Type := Option KlwpDir

/-- A klwp listing record; `ftype` embeds the Python `type` field. -/
structure KlwpRec where
  name : String
  ftype : String
deriving DecidableEq

/-- The in-memory klwp cache `metadata_caches["klwp"]`: `none` models the
empty dict, `some` the dict `{"klwp": list, "last_modified": timestamp}`. -/
abbrev KlwpCache : Type := Option (List KlwpRec × Int)

/-- `ASSET_PATHS["klwp"]["file_types"]`. -/
def klwpFileTypes : List String := [".png", ".jpg", ".jpeg", ".gif", ".klwp"]

/-- The listing rebuild of `update_klwp_cache` over the `os.listdir`
entries. -/
def buildKlwpList (entries : List String) : List KlwpRec :=
  (entries.filter (fun n => hasExt klwpFileTypes n)).map
    (fun n =>
      { name := n
        ftype := if strEndsWith n ".klwp" then "klwp" else "image" })

/-- `update_klwp_cache` of `src/main.py`: missing base folder returns early
leaving the cache untouched; an unchanged base-directory timestamp reuses
the cached listing; otherwise the listing is rebuilt from a fresh directory
read.  The second component records whether a rebuild ran. -/
def update_klwp_cache (cache : KlwpCache) (fs : KlwpFS) : KlwpCache × Bool :=
  match fs with
  | none => (cache, false)
  | some d =>
      match cache with
      | some (l, t) =>
          if t = d.dirMtime then (some (l, t), false)
          else (some (buildKlwpList d.entries, d.dirMtime), true)
      | none => (some (buildKlwpList d.entries, d.dirMtime), true)

/-! ## CacheStore (`load_cache`) -/

/-- `load_cache` of `src/main.py` for one collection, as a function of
`os.path.exists(cache_file)` and of the outcome of reading and
`json.loads`-ing the file (`parsed = none` models an unreadable file or
invalid JSON, i.e. the read or the parse raising).  The source guards only
the existence test; the body `json.loads(await f.read())` runs bare, so a
raise propagates out of `load_cache`, modelled as `.error ()`. -/
def load_cache {α : Type} (emptyCache : α) (fileExists : Bool)
    (parsed : Option α) : Except Unit α :=
  if fileExists then
    match parsed with
    | some c => .ok c
    | none => .error ()
  else .ok emptyCache

/-! ## Derived specification vocabulary -/

/-- The record the reconciliation pass associates to a scanned wallpaper
file: the cached record on a fresh cache hit, the freshly extracted one
otherwise. -/
def recordFor (cache : WallCache) (p : String × WFile) : WallRecord :=
  match cacheHit cache p.1 p.2 with
  | some r => r
  | none => (process_wallpaper p.1 p.2).2

/-- The sixteen lowercase hexadecimal digit characters. -/
def hexChars : List Char :=
  "0123456789abcdef".data

/-! ## Concrete filesystem states

Small filesystem states used to instantiate the theorems on explicit
inputs. -/

def redPix : RGB8 := ⟨255, 0, 0⟩

def bluePix : RGB8 := ⟨0, 0, 255⟩

/-- A decodable 100×50 image whose downsample is two red samples and one
blue one. -/
def exImg : ImgData := ⟨100, 50, [redPix, redPix, bluePix]⟩

def exFile1 : WFile := ⟨[], "a.png", 5, 100, some exImg⟩

/-- `exFile1` after a touch: same path and content, new mtime. -/
def exFile1Touched : WFile := ⟨[], "a.png", 6, 100, some exImg⟩

/-- An accepted-extension file whose content is not a decodable image. -/
def exFile2 : WFile := ⟨["cat"], "b.jpg", 7, 200, none⟩

def exWallFS : WallFS := [("hq", some [exFile1, exFile2]), ("mid", none)]

def exWallFSTouched : WallFS :=
  [("hq", some [exFile1Touched, exFile2]), ("mid", none)]

def exWidgetBase : WDir := ⟨".", []⟩

def exWidgetDir : WDir := ⟨"cat", [("a.png", 5), ("b.png", 3)]⟩

/-- `exWidgetDir` after deleting `b.png` (whose mtime 3 is below the
directory maximum 5, so the per-directory maximum is unchanged). -/
def exWidgetDirAfterRemoval : WDir := ⟨"cat", [("a.png", 5)]⟩

def exWidgetFS : WidgetFS := some [exWidgetBase, exWidgetDir]

def exWidgetFSAfterRemoval : WidgetFS :=
  some [exWidgetBase, exWidgetDirAfterRemoval]

def exWidgetDirA : WDir := ⟨"cat1", [("a.png", 5)]⟩

def exWidgetDirB : WDir := ⟨"cat2", [("b.png", 3)]⟩

def exWidgetFSTwoDirs : WidgetFS := some [exWidgetBase, exWidgetDirA, exWidgetDirB]

/-- `exWidgetFSTwoDirs` after deleting the whole `cat2` directory. -/
def exWidgetFSDirDeleted : WidgetFS := some [exWidgetBase, exWidgetDirA]

/-! ## Association-list lemmas -/

theorem dictGet_append {β : Type} (k : String) (l₁ l₂ : List (String × β)) :
    dictGet k (l₁ ++ l₂) =
      match dictGet k l₁ with
      | some v => some v
      | none => dictGet k l₂ := by
  induction l₁ with
  | nil => simp [dictGet]
  | cons p rest ih =>
    by_cases h : p.1 = k
    · simp [dictGet, h]
    · simp [dictGet, h, ih]

theorem keysOf_cons {β : Type} (p : String × β) (l : List (String × β)) :
    keysOf (p :: l) = p.1 :: keysOf l := rfl

theorem dictGet_eq_none_of_not_mem {β : Type} {k : String} {l : List (String × β)}
    (h : k ∉ keysOf l) : dictGet k l = none := by
  induction l with
  | nil => rfl
  | cons p rest ih =>
    rw [keysOf_cons, List.mem_cons] at h
    push_neg at h
    rw [dictGet, if_neg (fun he => h.1 he.symm)]
    exact ih h.2

theorem mem_of_dictGet_eq_some {β : Type} {k : String} {v : β} {l : List (String × β)}
    (h : dictGet k l = some v) : (k, v) ∈ l := by
  induction l with
  | nil => simp [dictGet] at h
  | cons p rest ih =>
    by_cases hk : p.1 = k
    · simp only [dictGet, if_pos hk] at h
      have hp : p = (k, v) := by
        cases p
        simp_all
      exact List.mem_cons.mpr (Or.inl hp.symm)
    · simp only [dictGet, if_neg hk] at h
      exact List.mem_cons_of_mem _ (ih h)

theorem dictGet_eq_some_of_mem {β : Type} {k : String} {v : β} {l : List (String × β)}
    (hnd : (keysOf l).Nodup) (h : (k, v) ∈ l) : dictGet k l = some v := by
  induction l with
  | nil => simp at h
  | cons p rest ih =>
    simp only [keysOf, List.map_cons, List.nodup_cons] at hnd
    rcases List.mem_cons.mp h with h | h
    · cases h
      simp [dictGet]
    · have hk : p.1 ≠ k := by
        intro he
        exact hnd.1 (he ▸ (List.mem_map.mpr ⟨(k, v), h, rfl⟩))
      simp only [dictGet, if_neg hk]
      exact ih hnd.2 h

theorem keysOf_append {β : Type} (l₁ l₂ : List (String × β)) :
    keysOf (l₁ ++ l₂) = keysOf l₁ ++ keysOf l₂ := by
  simp [keysOf]

theorem dictGet_append_left {β : Type} {k : String} {v : β}
    (l₁ l₂ : List (String × β)) (h : dictGet k l₁ = some v) :
    dictGet k (l₁ ++ l₂) = some v := by
  rw [dictGet_append, h]

theorem dictGet_append_right {β : Type} {k : String}
    (l₁ l₂ : List (String × β)) (h : dictGet k l₁ = none) :
    dictGet k (l₁ ++ l₂) = dictGet k l₂ := by
  rw [dictGet_append, h]

theorem dictGet_append_cons_skip {β : Type} {k : String} {e : String × β}
    (A B : List (String × β)) (h : e.1 ≠ k) :
    dictGet k (A ++ e :: B) = dictGet k (A ++ B) := by
  obtain ⟨e₁, e₂⟩ := e
  rw [dictGet_append, dictGet_append]
  cases dictGet k A
  · simp only [dictGet, if_neg h]
  · rfl

/-! ## Wallpaper reconciliation lemmas -/

theorem process_wallpaper_fst (s : String) (f : WFile) :
    (process_wallpaper s f).1 = wallKey s f := rfl

theorem cacheHit_elim {cache : WallCache} {s : String} {f : WFile}
    {r : WallRecord} (h : cacheHit cache s f = some r) :
    dictGet (wallKey s f) cache = some r ∧ r.last_modified = f.mtime := by
  unfold cacheHit at h
  split at h
  next r' hd =>
    split at h
    next hc =>
      cases h
      exact ⟨hd, hc⟩
    next hc => cases h
  next hd => cases h

theorem keptEntries_cons (cache : WallCache) (q : String × WFile)
    (rest : List (String × WFile)) :
    keptEntries cache (q :: rest) =
      (match cacheHit cache q.1 q.2 with
       | some r => [(wallKey q.1 q.2, r)]
       | none => []) ++ keptEntries cache rest := by
  unfold keptEntries
  rw [List.filterMap_cons]
  cases cacheHit cache q.1 q.2 <;> simp

theorem staleEntries_cons (cache : WallCache) (q : String × WFile)
    (rest : List (String × WFile)) :
    staleEntries cache (q :: rest) =
      (if (cacheHit cache q.1 q.2).isNone then [q] else []) ++
        staleEntries cache rest := by
  unfold staleEntries
  rw [List.filter_cons]
  cases cacheHit cache q.1 q.2 <;> simp

theorem mem_keysOf_keptEntries {cache : WallCache}
    {scanned : List (String × WFile)} {k : String}
    (h : k ∈ keysOf (keptEntries cache scanned)) :
    ∃ p ∈ scanned, k = wallKey p.1 p.2 := by
  rcases List.mem_map.mp h with ⟨e, he, hk⟩
  rcases List.mem_filterMap.mp he with ⟨p, hp, hf⟩
  rcases Option.map_eq_some'.mp hf with ⟨r, _, he2⟩
  exact ⟨p, hp, by rw [← hk, ← he2]⟩

theorem recordFor_last_modified (cache : WallCache) (p : String × WFile) :
    (recordFor cache p).last_modified = p.2.mtime := by
  unfold recordFor
  cases hq : cacheHit cache p.1 p.2 with
  | some r => exact (cacheHit_elim hq).2
  | none => rfl

/-- The central per-file reconciliation property: with distinct scan keys,
every scanned file's key is bound in the new `assets` dict to its
`recordFor` record (the reused cached record on a fresh hit, the freshly
processed record otherwise). -/
theorem dictGet_mkAssets {cache : WallCache} {scanned : List (String × WFile)}
    (hnd : (scanned.map (fun p => wallKey p.1 p.2)).Nodup) :
    ∀ p ∈ scanned,
      dictGet (wallKey p.1 p.2) (mkAssets cache scanned) =
        some (recordFor cache p) := by
  induction scanned with
  | nil => intro p hp; exact absurd hp (List.not_mem_nil p)
  | cons q rest ih =>
    intro p hp
    rw [List.map_cons, List.nodup_cons] at hnd
    have hkey : ∀ p' ∈ rest, wallKey q.1 q.2 ≠ wallKey p'.1 p'.2 := by
      intro p' hp' he
      exact hnd.1 (he ▸ List.mem_map.mpr ⟨p', hp', rfl⟩)
    cases hq : cacheHit cache q.1 q.2 with
    | some r =>
      have hstep : mkAssets cache (q :: rest) =
          (wallKey q.1 q.2, r) :: mkAssets cache rest := by
        unfold mkAssets
        rw [keptEntries_cons, staleEntries_cons, hq]
        simp
      rcases List.mem_cons.mp hp with rfl | hp'
      · have hrec : recordFor cache p = r := by
          unfold recordFor
          rw [hq]
        rw [hstep, hrec]
        simp [dictGet]
      · rw [hstep]
        simp only [dictGet, if_neg (hkey p hp')]
        exact ih hnd.2 p hp'
    | none =>
      have hstep : mkAssets cache (q :: rest) =
          keptEntries cache rest ++
            (process_wallpaper q.1 q.2 ::
              (staleEntries cache rest).map (fun p' => process_wallpaper p'.1 p'.2)) := by
        unfold mkAssets
        rw [keptEntries_cons, staleEntries_cons, hq]
        simp
      rcases List.mem_cons.mp hp with rfl | hp'
      · have hnk : dictGet (wallKey p.1 p.2) (keptEntries cache rest) = none := by
          apply dictGet_eq_none_of_not_mem
          intro hmem
          rcases mem_keysOf_keptEntries hmem with ⟨p', hp', he⟩
          exact hkey p' hp' he
        have hrec : recordFor cache p = (process_wallpaper p.1 p.2).2 := by
          unfold recordFor
          rw [hq]
        rw [hstep, hrec, dictGet_append_right _ _ hnk,
          show process_wallpaper p.1 p.2 =
            (wallKey p.1 p.2, (process_wallpaper p.1 p.2).2) from rfl]
        simp [dictGet]
      · rw [hstep,
          dictGet_append_cons_skip _ _
            ((process_wallpaper_fst q.1 q.2).symm ▸ hkey p hp')]
        exact ih hnd.2 p hp'

theorem mem_scan_of_dictGet_mkAssets {cache : WallCache}
    {scanned : List (String × WFile)} {k : String} {r : WallRecord}
    (h : dictGet k (mkAssets cache scanned) = some r) :
    k ∈ scanned.map (fun p => wallKey p.1 p.2) := by
  have hm := mem_of_dictGet_eq_some h
  unfold mkAssets at hm
  rcases List.mem_append.mp hm with hm | hm
  · rcases List.mem_filterMap.mp hm with ⟨p, hp, hf⟩
    rcases Option.map_eq_some'.mp hf with ⟨r', _, he2⟩
    have : wallKey p.1 p.2 = k := congrArg Prod.fst he2
    exact List.mem_map.mpr ⟨p, hp, this⟩
  · rcases List.mem_map.mp hm with ⟨p, hp, he⟩
    have hp' : p ∈ scanned := List.mem_of_mem_filter hp
    have : wallKey p.1 p.2 = k := congrArg Prod.fst he
    exact List.mem_map.mpr ⟨p, hp', this⟩

theorem cacheHit_mkAssets {cache : WallCache} {scanned : List (String × WFile)}
    (hnd : (scanned.map (fun p => wallKey p.1 p.2)).Nodup)
    {p : String × WFile} (hp : p ∈ scanned) :
    cacheHit (mkAssets cache scanned) p.1 p.2 = some (recordFor cache p) := by
  unfold cacheHit
  rw [dictGet_mkAssets hnd p hp]
  simp [recordFor_last_modified cache p]

theorem filterMap_eq_map_of_forall {α β : Type} {f : α → Option β} {g : α → β}
    {l : List α} (h : ∀ a ∈ l, f a = some (g a)) : l.filterMap f = l.map g := by
  induction l with
  | nil => rfl
  | cons a t ih =>
    rw [List.filterMap_cons, h a (List.mem_cons_self a t), List.map_cons,
      ih (fun b hb => h b (List.mem_cons_of_mem a hb))]

/-- After a pass with distinct scan keys, a second pass over the same scan
finds every file fresh in the cache: its `tasks` list is empty. -/
theorem staleEntries_mkAssets {cache : WallCache}
    {scanned : List (String × WFile)}
    (hnd : (scanned.map (fun p => wallKey p.1 p.2)).Nodup) :
    staleEntries (mkAssets cache scanned) scanned = [] := by
  unfold staleEntries
  rw [List.filter_eq_nil_iff]
  intro p hp
  rw [cacheHit_mkAssets hnd hp]
  simp

theorem keptEntries_mkAssets {cache : WallCache}
    {scanned : List (String × WFile)}
    (hnd : (scanned.map (fun p => wallKey p.1 p.2)).Nodup) :
    keptEntries (mkAssets cache scanned) scanned =
      scanned.map (fun p => (wallKey p.1 p.2, recordFor cache p)) := by
  apply filterMap_eq_map_of_forall
  intro p hp
  rw [cacheHit_mkAssets hnd hp]
  rfl

/-- Idempotence at the dict level: reconciling twice over the same scan
yields the same dict contents as reconciling once. -/
theorem dictGet_mkAssets_idem {cache : WallCache}
    {scanned : List (String × WFile)}
    (hnd : (scanned.map (fun p => wallKey p.1 p.2)).Nodup) (k : String) :
    dictGet k (mkAssets (mkAssets cache scanned) scanned) =
      dictGet k (mkAssets cache scanned) := by
  by_cases hk : k ∈ scanned.map (fun p => wallKey p.1 p.2)
  · rcases List.mem_map.mp hk with ⟨p, hp, he⟩
    have hrec : recordFor (mkAssets cache scanned) p = recordFor cache p := by
      unfold recordFor
      rw [cacheHit_mkAssets hnd hp]
      rfl
    rw [← he, dictGet_mkAssets hnd p hp, dictGet_mkAssets hnd p hp, hrec]
  · have h1 : dictGet k (mkAssets cache scanned) = none := by
      cases h : dictGet k (mkAssets cache scanned) with
      | none => rfl
      | some r => exact absurd (mem_scan_of_dictGet_mkAssets h) hk
    have h2 : dictGet k (mkAssets (mkAssets cache scanned) scanned) = none := by
      cases h : dictGet k (mkAssets (mkAssets cache scanned) scanned) with
      | none => rfl
      | some r => exact absurd (mem_scan_of_dictGet_mkAssets h) hk
    rw [h1, h2]

/-! ## Widget reconciliation lemmas -/

theorem update_widget_valid {cache : WidgetCache} {dirs : List WDir}
    (h : widgetCacheValid cache (lmMap dirs) = true) :
    update_widget_cache cache (some dirs) = (cache, false) := by
  simp [update_widget_cache, h]

theorem update_widget_rebuild {cache : WidgetCache} {dirs : List WDir}
    (h : ¬ widgetCacheValid cache (lmMap dirs) = true) :
    update_widget_cache cache (some dirs) =
      (some (buildWidgetList dirs, lmMap dirs), true) := by
  simp [update_widget_cache, h]

/-- Reconciling the widgets collection twice over the same filesystem state
leaves the cache exactly where the first reconciliation put it. -/
theorem update_widget_idem (cache : WidgetCache) (fs : WidgetFS) :
    (update_widget_cache (update_widget_cache cache fs).1 fs).1 =
      (update_widget_cache cache fs).1 := by
  cases fs with
  | none => rfl
  | some dirs =>
    by_cases h1 : widgetCacheValid cache (lmMap dirs) = true
    · rw [update_widget_valid h1, update_widget_valid h1]
    · rw [update_widget_rebuild h1]
      by_cases h2 : widgetCacheValid
          (some (buildWidgetList dirs, lmMap dirs)) (lmMap dirs) = true
      · rw [update_widget_valid h2]
      · rw [update_widget_rebuild h2]

/-- A current directory whose timestamp is missing from or disagrees with
the cached per-directory map invalidates the cache. -/
theorem widgetCacheValid_eq_false {listing : List WidgetRec}
    {cachedLm lm : List (String × Int)} {pm : String × Int}
    (hp : pm ∈ lm) (hne : dictGet pm.1 cachedLm ≠ some pm.2) :
    widgetCacheValid (some (listing, cachedLm)) lm = false := by
  unfold widgetCacheValid
  rw [List.all_eq_false]
  exact ⟨pm, hp, by simpa using hne⟩

/-- If every current directory's timestamp agrees with the cached map, the
cache is declared valid (deleted directories are never examined). -/
theorem widgetCacheValid_eq_true {listing : List WidgetRec}
    {cachedLm lm : List (String × Int)}
    (h : ∀ pm ∈ lm, dictGet pm.1 cachedLm = some pm.2) :
    widgetCacheValid (some (listing, cachedLm)) lm = true := by
  unfold widgetCacheValid
  rw [List.all_eq_true]
  intro pm hpm
  simpa using h pm hpm

/-- Characterization of the rebuilt widgets listing: exactly the
accepted-extension files of the walked directories other than the base
directory itself, classified by filename suffix. -/
theorem mem_buildWidgetList {dirs : List WDir} {rec : WidgetRec} :
    rec ∈ buildWidgetList dirs ↔
      ∃ d ∈ dirs, d.cat ≠ "." ∧ ∃ nf ∈ d.files,
        hasExt widgetFileTypes nf.1 = true ∧ rec = mkWidgetRec d.cat nf.1 := by
  induction dirs with
  | nil => simp [buildWidgetList]
  | cons d rest ih =>
    rw [buildWidgetList, List.mem_append, ih]
    by_cases hc : d.cat = "."
    · rw [if_pos hc]
      simp only [List.not_mem_nil, false_or]
      constructor
      · rintro ⟨d', hd', hrest⟩
        exact ⟨d', List.mem_cons_of_mem d hd', hrest⟩
      · rintro ⟨d', hd', hne, hrest⟩
        rcases List.mem_cons.mp hd' with rfl | hd'
        · exact absurd hc hne
        · exact ⟨d', hd', hne, hrest⟩
    · rw [if_neg hc]
      constructor
      · rintro (hmem | ⟨d', hd', hrest⟩)
        · rcases List.mem_map.mp hmem with ⟨nf, hnf, hrec⟩
          rcases List.mem_filter.mp hnf with ⟨hnf, hext⟩
          exact ⟨d, List.mem_cons_self d rest, hc, nf, hnf, hext, hrec.symm⟩
        · exact ⟨d', List.mem_cons_of_mem d hd', hrest⟩
      · rintro ⟨d', hd', hne, nf, hnf, hext, hrec⟩
        rcases List.mem_cons.mp hd' with rfl | hd'
        · exact Or.inl (List.mem_map.mpr
            ⟨nf, List.mem_filter.mpr ⟨hnf, hext⟩, hrec.symm⟩)
        · exact Or.inr ⟨d', hd', hne, nf, hnf, hext, hrec⟩

/-! ## KLWP reconciliation lemmas -/

theorem update_klwp_reuse {listing : List KlwpRec} {t : Int} {d : KlwpDir}
    (h : t = d.dirMtime) :
    update_klwp_cache (some (listing, t)) (some d) = (some (listing, t), false) := by
  simp [update_klwp_cache, h]

theorem update_klwp_rebuild {listing : List KlwpRec} {t : Int} {d : KlwpDir}
    (h : t ≠ d.dirMtime) :
    update_klwp_cache (some (listing, t)) (some d) =
      (some (buildKlwpList d.entries, d.dirMtime), true) := by
  simp [update_klwp_cache, h]

/-- Reconciling the klwp collection twice over the same filesystem state:
the second call reuses the cache and never rebuilds. -/
theorem update_klwp_idem (cache : KlwpCache) (fs : KlwpFS) :
    update_klwp_cache (update_klwp_cache cache fs).1 fs =
      ((update_klwp_cache cache fs).1, false) := by
  cases fs with
  | none =>
    cases cache with
    | none => rfl
    | some p => rfl
  | some d =>
    cases cache with
    | none => exact update_klwp_reuse rfl
    | some p =>
      obtain ⟨listing, t⟩ := p
      by_cases h : t = d.dirMtime
      · rw [update_klwp_reuse h, update_klwp_reuse h]
      · rw [update_klwp_rebuild h, update_klwp_reuse rfl]

/-- Every record of a rebuilt klwp listing names a current directory
entry. -/
theorem mem_buildKlwpList {entries : List String} {rec : KlwpRec}
    (h : rec ∈ buildKlwpList entries) : rec.name ∈ entries := by
  rcases List.mem_map.mp h with ⟨n, hn, hrec⟩
  rw [← hrec]
  exact List.mem_of_mem_filter hn

/-! ## ColorSampler lemmas -/

theorem mem_firstOccs {c : RGB8} {ps : List RGB8} :
    c ∈ firstOccs ps ↔ c ∈ ps := by
  induction ps with
  | nil => simp [firstOccs]
  | cons d cs ih =>
    rw [firstOccs]
    by_cases hc : c = d
    · subst hc
      simp
    · simp only [List.mem_cons, List.mem_filter]
      constructor
      · rintro (rfl | ⟨hmem, _⟩)
        · exact Or.inl rfl
        · exact Or.inr (ih.mp hmem)
      · rintro (rfl | hmem)
        · exact Or.inl rfl
        · exact Or.inr ⟨ih.mpr hmem, by simp [hc]⟩

theorem firstOccs_ne_nil {ps : List RGB8} (h : ps ≠ []) :
    firstOccs ps ≠ [] := by
  cases ps with
  | nil => exact absurd rfl h
  | cons c cs => simp [firstOccs]

/-- Every entry of the frequency ranking carries its color's true
multiplicity in the pixel stream. -/
theorem rankedColors_counts {ps : List RGB8} {pn : RGB8 × Nat}
    (h : pn ∈ rankedColors ps) : pn.2 = ps.count pn.1 := by
  have hm : pn ∈ counterItems ps :=
    (List.perm_insertionSort freqGE _).mem_iff.mp h
  rcases List.mem_map.mp hm with ⟨c, _, he⟩
  rw [← he]

/-- The ranking is sorted by non-increasing frequency. -/
theorem rankedColors_sorted (ps : List RGB8) :
    (rankedColors ps).Pairwise freqGE :=
  List.sorted_insertionSort freqGE (counterItems ps)

/-- Top-`n` property: every color cut off by `most_common(n)` has a count
at most that of every returned color. -/
theorem mostCommon_dominates {n : Nat} {ps : List RGB8} :
    ∀ p ∈ mostCommon n ps, ∀ q ∈ (rankedColors ps).drop n, q.2 ≤ p.2 := by
  intro p hp q hq
  have hs := rankedColors_sorted ps
  rw [← List.take_append_drop n (rankedColors ps), List.pairwise_append] at hs
  exact hs.2.2 p hp q hq

/-- Stability: two distinct colors with equal counts appear in the ranking
in their first-encounter order. -/
theorem rankedColors_stable {ps : List RGB8} {c e : RGB8}
    (hsub : List.Sublist [c, e] (firstOccs ps))
    (heq : ps.count c = ps.count e) :
    List.Sublist [(c, ps.count c), (e, ps.count e)] (rankedColors ps) := by
  have h1 : List.Sublist [(c, ps.count c), (e, ps.count e)] (counterItems ps) :=
    hsub.map (fun x => (x, ps.count x))
  exact List.pair_sublist_insertionSort
    (show freqGE (c, ps.count c) (e, ps.count e) from le_of_eq heq.symm) h1

/-- A non-empty pixel stream yields a non-empty `most_common` list. -/
theorem mostCommon_ne_nil {ps : List RGB8} (h : ps ≠ []) {n : Nat}
    (hn : 0 < n) : mostCommon n ps ≠ [] := by
  have hlen : 0 < (rankedColors ps).length := by
    rw [rankedColors, List.length_insertionSort, counterItems, List.length_map]
    exact List.length_pos.mpr (firstOccs_ne_nil h)
  apply List.ne_nil_of_length_pos
  rw [mostCommon, List.length_take]
  exact lt_min hn hlen

/-- Every returned entry is an actual pixel value of the stream. -/
theorem mostCommon_subset_pixels {n : Nat} {ps : List RGB8} {pn : RGB8 × Nat}
    (h : pn ∈ mostCommon n ps) : pn.1 ∈ ps := by
  have h1 : pn ∈ rankedColors ps := List.mem_of_mem_take h
  have hm : pn ∈ counterItems ps :=
    (List.perm_insertionSort freqGE _).mem_iff.mp h1
  rcases List.mem_map.mp hm with ⟨c, hc, he⟩
  cases he
  exact mem_firstOccs.mp hc

/-- Every pixel value of the stream appears in the ranking. -/
theorem mem_rankedColors_of_mem {ps : List RGB8} {c : RGB8} (h : c ∈ ps) :
    (c, ps.count c) ∈ rankedColors ps :=
  (List.perm_insertionSort freqGE _).mem_iff.mpr
    (List.mem_map.mpr ⟨c, mem_firstOccs.mpr h, rfl⟩)

theorem hexDigit_mem_hexChars : ∀ n < 16, hexDigit n ∈ hexChars := by decide

theorem colorHex_data (c : RGB8) :
    (colorHex c).data =
      '#' :: [hexDigit (c.r.val / 16 % 16), hexDigit (c.r.val % 16),
        hexDigit (c.g.val / 16 % 16), hexDigit (c.g.val % 16),
        hexDigit (c.b.val / 16 % 16), hexDigit (c.b.val % 16)] := rfl

/-- Well-formedness of the rendered color string: a `#` followed by six
lowercase hexadecimal digit characters. -/
theorem colorHex_shape (c : RGB8) :
    ∃ tl, (colorHex c).data = '#' :: tl ∧ tl.length = 6 ∧
      ∀ ch ∈ tl, ch ∈ hexChars := by
  refine ⟨_, colorHex_data c, rfl, ?_⟩
  intro ch hch
  have h16 : ∀ m : Nat, m % 16 < 16 := fun m => Nat.mod_lt _ (by norm_num)
  simp only [List.mem_cons, List.not_mem_nil, or_false] at hch
  rcases hch with rfl | rfl | rfl | rfl | rfl | rfl <;>
    exact hexDigit_mem_hexChars _ (h16 _)

/-! ## Projection lemmas for the reconciliation entry points -/

theorem update_wallpaper_fst (cache : WallCache) (fs : WallFS) :
    (update_wallpaper_cache cache fs).1 = mkAssets cache (scanWall fs) := rfl

theorem update_wallpaper_snd (cache : WallCache) (fs : WallFS) :
    (update_wallpaper_cache cache fs).2 =
      (staleEntries cache (scanWall fs)).map (fun p => wallKey p.1 p.2) := rfl

theorem scanKeys_eq (fs : WallFS) :
    scanKeys fs = (scanWall fs).map (fun p => wallKey p.1 p.2) := rfl

theorem cacheHit_none_intro {cache : WallCache} {s : String} {f : WFile}
    (h : ∀ r, dictGet (wallKey s f) cache = some r →
      r.last_modified ≠ f.mtime) :
    cacheHit cache s f = none := by
  unfold cacheHit
  cases hd : dictGet (wallKey s f) cache with
  | none => rfl
  | some r => simp [h r hd]

/-! ## Claim theorems -/

/-- **C1** — Per-file reconciliation (wallpapers): for every scanned file,
if its cache key is present in the in-memory cache and the cached
`last_modified` equals the file's current on-disk modification time, the
cached record is kept unchanged in the new cache; otherwise (key absent, or
every cached binding has a different timestamp) the new cache binds the key
to the freshly extracted `process_wallpaper` record; and every key of the
resulting cache belongs to the current scan, so cached keys of files no
longer scanned are evicted.  The hypothesis that scan keys are distinct
reflects that the keys are relative filesystem paths. -/
theorem C1_per_file_reconciliation (cache : WallCache) (fs : WallFS)
    (hnd : (scanKeys fs).Nodup) :
    (∀ p ∈ scanWall fs, ∀ r : WallRecord,
        dictGet (wallKey p.1 p.2) cache = some r →
        r.last_modified = p.2.mtime →
        dictGet (wallKey p.1 p.2) (update_wallpaper_cache cache fs).1 =
          some r) ∧
    (∀ p ∈ scanWall fs,
        (dictGet (wallKey p.1 p.2) cache = none ∨
          ∀ r : WallRecord, dictGet (wallKey p.1 p.2) cache = some r →
            r.last_modified ≠ p.2.mtime) →
        dictGet (wallKey p.1 p.2) (update_wallpaper_cache cache fs).1 =
          some (process_wallpaper p.1 p.2).2) ∧
    (∀ (k : String) (r : WallRecord),
        dictGet k (update_wallpaper_cache cache fs).1 = some r →
        k ∈ scanKeys fs) := by
  refine ⟨?_, ?_, ?_⟩
  · intro p hp r hd heq
    have hhit : cacheHit cache p.1 p.2 = some r := by
      unfold cacheHit
      rw [hd]
      simp [heq]
    have hrec : recordFor cache p = r := by
      unfold recordFor
      rw [hhit]
    rw [update_wallpaper_fst, dictGet_mkAssets hnd p hp, hrec]
  · intro p hp hcond
    have hall : ∀ r, dictGet (wallKey p.1 p.2) cache = some r →
        r.last_modified ≠ p.2.mtime := by
      rcases hcond with hnone | hch
      · intro r hr
        rw [hnone] at hr
        cases hr
      · exact hch
    have hrec : recordFor cache p = (process_wallpaper p.1 p.2).2 := by
      unfold recordFor
      rw [cacheHit_none_intro hall]
    rw [update_wallpaper_fst, dictGet_mkAssets hnd p hp, hrec]
  · intro k r h
    rw [update_wallpaper_fst] at h
    exact mem_scan_of_dictGet_mkAssets h

/-- Witness for C1 on a concrete two-file scan starting from the empty
cache. -/
theorem C1_witness :
    (∀ p ∈ scanWall exWallFS, ∀ r : WallRecord,
        dictGet (wallKey p.1 p.2) ([] : WallCache) = some r →
        r.last_modified = p.2.mtime →
        dictGet (wallKey p.1 p.2) (update_wallpaper_cache [] exWallFS).1 =
          some r) ∧
    (∀ p ∈ scanWall exWallFS,
        (dictGet (wallKey p.1 p.2) ([] : WallCache) = none ∨
          ∀ r : WallRecord, dictGet (wallKey p.1 p.2) ([] : WallCache) = some r →
            r.last_modified ≠ p.2.mtime) →
        dictGet (wallKey p.1 p.2) (update_wallpaper_cache [] exWallFS).1 =
          some (process_wallpaper p.1 p.2).2) ∧
    (∀ (k : String) (r : WallRecord),
        dictGet k (update_wallpaper_cache [] exWallFS).1 = some r →
        k ∈ scanKeys exWallFS) :=
  C1_per_file_reconciliation [] exWallFS (by decide)

/-- **C2** — Idempotence: reconciling any collection twice over one fixed
filesystem state leaves the cache contents of the first reconciliation
unchanged (hence the returned record sets coincide), and the second pass
performs zero MetadataExtractor invocations: the wallpapers `tasks` list is
empty (the widgets and klwp strategies never invoke the extractor, and the
klwp pass also reports no rebuild). -/
theorem C2_idempotence (wallCache : WallCache) (fs : WallFS)
    (widCache : WidgetCache) (wfs : WidgetFS)
    (klwpCache : KlwpCache) (kfs : KlwpFS)
    (hnd : (scanKeys fs).Nodup) :
    (update_wallpaper_cache (update_wallpaper_cache wallCache fs).1 fs).2 =
      [] ∧
    (∀ k : String,
        dictGet k
            (update_wallpaper_cache
              (update_wallpaper_cache wallCache fs).1 fs).1 =
          dictGet k (update_wallpaper_cache wallCache fs).1) ∧
    (update_widget_cache (update_widget_cache widCache wfs).1 wfs).1 =
      (update_widget_cache widCache wfs).1 ∧
    update_klwp_cache (update_klwp_cache klwpCache kfs).1 kfs =
      ((update_klwp_cache klwpCache kfs).1, false) := by
  refine ⟨?_, ?_, update_widget_idem widCache wfs,
    update_klwp_idem klwpCache kfs⟩
  · rw [update_wallpaper_snd, update_wallpaper_fst, staleEntries_mkAssets hnd]
    rfl
  · intro k
    rw [update_wallpaper_fst, update_wallpaper_fst]
    exact dictGet_mkAssets_idem hnd k

/-- Witness for C2 on concrete filesystem states for all three
collections, starting from empty caches. -/
theorem C2_witness :
    (update_wallpaper_cache (update_wallpaper_cache [] exWallFS).1
        exWallFS).2 = [] ∧
    (∀ k : String,
        dictGet k
            (update_wallpaper_cache (update_wallpaper_cache [] exWallFS).1
              exWallFS).1 =
          dictGet k (update_wallpaper_cache [] exWallFS).1) ∧
    (update_widget_cache (update_widget_cache none exWidgetFS).1
        exWidgetFS).1 =
      (update_widget_cache none exWidgetFS).1 ∧
    update_klwp_cache (update_klwp_cache none (some ⟨1, ["x.klwp"]⟩)).1
        (some ⟨1, ["x.klwp"]⟩) =
      ((update_klwp_cache none (some ⟨1, ["x.klwp"]⟩)).1, false) :=
  C2_idempotence [] exWallFS none exWidgetFS none (some ⟨1, ["x.klwp"]⟩)
    (by decide)

/-- **C3 counterexample** — Deleting `cat/b.png` (mtime 3) from the widgets
collection does not change the per-directory invalidation map (the
directory maximum stays 5, set by `a.png`): the next reconciliation
declares the cache valid, performs no rebuild, and keeps the listing that
still contains the record of the deleted `b.png` — the claim's "removal
changes the invalidation-unit timestamp and the rebuilt listing excludes
the removed file" fails at this input. -/
theorem C3_counterexample :
    update_widget_cache (update_widget_cache none exWidgetFS).1
        exWidgetFSAfterRemoval =
      ((update_widget_cache none exWidgetFS).1, false) ∧
    (update_widget_cache none exWidgetFS).1 =
      some ([mkWidgetRec "cat" "a.png", mkWidgetRec "cat" "b.png"],
        [(".", 0), ("cat", 5)]) := by decide

/-- **C3 (amended)** — Deletion propagation under the coarse strategies
holds only when the removal changes the invalidation-unit value actually
compared: for klwp, a base-directory timestamp differing from the cached
one forces a full rebuild whose listing draws only on current directory
entries, so a removed entry is absent; for widgets, a rebuild happens when
some current directory's max-file-mtime entry is missing from or disagrees
with the cached map — removing a file below its directory's maximum leaves
that map unchanged and the stale listing is kept (see the counterexample) —
and when the rebuild does run, every rebuilt record names a current file of
a current non-base directory. -/
theorem C3_deletion_coarse_amended (listing : List KlwpRec) (t : Int)
    (d : KlwpDir) (x : String) (hkt : t ≠ d.dirMtime) (hkx : x ∉ d.entries)
    (wl : List WidgetRec) (clm : List (String × Int)) (dirs : List WDir)
    (pm : String × Int) (hpm : pm ∈ lmMap dirs)
    (hmm : dictGet pm.1 clm ≠ some pm.2) :
    update_klwp_cache (some (listing, t)) (some d) =
      (some (buildKlwpList d.entries, d.dirMtime), true) ∧
    (∀ rec ∈ buildKlwpList d.entries, rec.name ≠ x) ∧
    update_widget_cache (some (wl, clm)) (some dirs) =
      (some (buildWidgetList dirs, lmMap dirs), true) ∧
    (∀ rec ∈ buildWidgetList dirs,
        ∃ d' ∈ dirs, d'.cat ≠ "." ∧ rec.category = d'.cat ∧
          ∃ m : Int, (rec.name, m) ∈ d'.files) := by
  refine ⟨update_klwp_rebuild hkt, ?_, ?_, ?_⟩
  · intro rec hrec he
    exact hkx (he ▸ mem_buildKlwpList hrec)
  · apply update_widget_rebuild
    rw [widgetCacheValid_eq_false hpm hmm]
    simp
  · intro rec hrec
    rcases mem_buildWidgetList.mp hrec with ⟨d', hd', hne, nf, hnf, _, hrec'⟩
    subst hrec'
    refine ⟨d', hd', hne, rfl, nf.2, ?_⟩
    show (nf.1, nf.2) ∈ d'.files
    exact hnf

/-- Witness for the amended C3 on concrete klwp and widget states. -/
theorem C3_witness :
    update_klwp_cache (some ([], 1)) (some ⟨2, ["x.klwp"]⟩) =
      (some (buildKlwpList ["x.klwp"], 2), true) ∧
    (∀ rec ∈ buildKlwpList ["x.klwp"], rec.name ≠ "gone.png") ∧
    update_widget_cache (some ([], [])) (some [⟨"cat", [("a.png", 5)]⟩]) =
      (some (buildWidgetList [⟨"cat", [("a.png", 5)]⟩],
        lmMap [⟨"cat", [("a.png", 5)]⟩]), true) ∧
    (∀ rec ∈ buildWidgetList [⟨"cat", [("a.png", 5)]⟩],
        ∃ d' ∈ [(⟨"cat", [("a.png", 5)]⟩ : WDir)], d'.cat ≠ "." ∧
          rec.category = d'.cat ∧ ∃ m : Int, (rec.name, m) ∈ d'.files) :=
  C3_deletion_coarse_amended [] 1 ⟨2, ["x.klwp"]⟩ "gone.png" (by decide)
    (by decide) [] [] [⟨"cat", [("a.png", 5)]⟩] ("cat", 5) (by decide)
    (by decide)

/-- **C4** — ColorSampler: on a decodable image the sampler returns
`most_common(5)` of the exact downsampled pixel values rendered as
lowercase `#rrggbb` strings; each returned entry is a real pixel value
carrying its true frequency; the ranking is sorted by non-increasing
frequency, every cut-off color's count is at most every returned one's, and
equal-count colors stay in first-encounter order (stability of the
descending sort); the result is non-empty whenever the downsampled pixel
stream is (the fixed 100×100 resize always yields 10000 samples), and an
undecodable input yields exactly `["#000000"]`. -/
theorem C4_color_sampler (d : ImgData) (hne : d.pixels ≠ []) :
    get_prominent_colors none 5 = ["#000000"] ∧
    get_prominent_colors (some d) 5 =
      (mostCommon 5 d.pixels).map (fun p => colorHex p.1) ∧
    get_prominent_colors (some d) 5 ≠ [] ∧
    (∀ pn ∈ mostCommon 5 d.pixels,
        pn.1 ∈ d.pixels ∧ pn.2 = d.pixels.count pn.1) ∧
    (rankedColors d.pixels).Pairwise freqGE ∧
    (∀ p ∈ mostCommon 5 d.pixels,
        ∀ q ∈ (rankedColors d.pixels).drop 5, q.2 ≤ p.2) ∧
    (∀ c e : RGB8, List.Sublist [c, e] (firstOccs d.pixels) →
        d.pixels.count c = d.pixels.count e →
        List.Sublist [(c, d.pixels.count c), (e, d.pixels.count e)]
          (rankedColors d.pixels)) ∧
    (∀ s ∈ get_prominent_colors (some d) 5,
        ∃ tl, s.data = '#' :: tl ∧ tl.length = 6 ∧
          ∀ ch ∈ tl, ch ∈ hexChars) := by
  refine ⟨rfl, rfl, ?_, ?_, rankedColors_sorted d.pixels,
    mostCommon_dominates, fun c e hsub heq => rankedColors_stable hsub heq,
    ?_⟩
  · intro hemp
    rw [show get_prominent_colors (some d) 5 =
        (mostCommon 5 d.pixels).map (fun p => colorHex p.1) from rfl] at hemp
    have hlen := congrArg List.length hemp
    rw [List.length_map] at hlen
    exact mostCommon_ne_nil hne (by norm_num)
      (List.eq_nil_of_length_eq_zero hlen)
  · intro pn hpn
    exact ⟨mostCommon_subset_pixels hpn,
      rankedColors_counts (List.mem_of_mem_take hpn)⟩
  · intro s hs
    rw [show get_prominent_colors (some d) 5 =
        (mostCommon 5 d.pixels).map (fun p => colorHex p.1) from rfl] at hs
    rcases List.mem_map.mp hs with ⟨p, _, hsp⟩
    rw [← hsp]
    exact colorHex_shape p.1

/-- Witness for C4 on the concrete three-sample image. -/
theorem C4_witness :
    get_prominent_colors none 5 = ["#000000"] ∧
    get_prominent_colors (some exImg) 5 =
      (mostCommon 5 exImg.pixels).map (fun p => colorHex p.1) ∧
    get_prominent_colors (some exImg) 5 ≠ [] ∧
    (∀ pn ∈ mostCommon 5 exImg.pixels,
        pn.1 ∈ exImg.pixels ∧ pn.2 = exImg.pixels.count pn.1) ∧
    (rankedColors exImg.pixels).Pairwise freqGE ∧
    (∀ p ∈ mostCommon 5 exImg.pixels,
        ∀ q ∈ (rankedColors exImg.pixels).drop 5, q.2 ≤ p.2) ∧
    (∀ c e : RGB8, List.Sublist [c, e] (firstOccs exImg.pixels) →
        exImg.pixels.count c = exImg.pixels.count e →
        List.Sublist [(c, exImg.pixels.count c), (e, exImg.pixels.count e)]
          (rankedColors exImg.pixels)) ∧
    (∀ s ∈ get_prominent_colors (some exImg) 5,
        ∃ tl, s.data = '#' :: tl ∧ tl.length = 6 ∧
          ∀ ch ∈ tl, ch ∈ hexChars) :=
  C4_color_sampler exImg (by decide)

/-- **C5** — MetadataExtractor fallback: a candidate file whose content
cannot be decoded is processed into a record with
`resolution = "Unknown"` and `colors = ["#000000"]`; `process_wallpaper`
is a total function in this embedding (the broad `except` clauses absorb
the failure, nothing propagates past the extractor); and in any
reconciliation batch — in particular one containing undecodable files —
every scanned file still receives its record in the new cache. -/
theorem C5_extractor_fallback (subfolder : String) (f : WFile)
    (hf : f.image = none) (cache : WallCache) (fs : WallFS)
    (hnd : (scanKeys fs).Nodup) :
    (process_wallpaper subfolder f).2.resolution = "Unknown" ∧
    (process_wallpaper subfolder f).2.colors = ["#000000"] ∧
    (∀ p ∈ scanWall fs,
        dictGet (wallKey p.1 p.2) (update_wallpaper_cache cache fs).1 =
          some (recordFor cache p)) := by
  refine ⟨?_, ?_, ?_⟩
  · simp [process_wallpaper, hf]
  · simp [process_wallpaper, get_prominent_colors, hf]
  · intro p hp
    rw [update_wallpaper_fst]
    exact dictGet_mkAssets hnd p hp

/-- Witness for C5: the undecodable `exFile2` inside the concrete scan
that also contains the decodable `exFile1`. -/
theorem C5_witness :
    (process_wallpaper "hq" exFile2).2.resolution = "Unknown" ∧
    (process_wallpaper "hq" exFile2).2.colors = ["#000000"] ∧
    (∀ p ∈ scanWall exWallFS,
        dictGet (wallKey p.1 p.2) (update_wallpaper_cache [] exWallFS).1 =
          some (recordFor [] p)) :=
  C5_extractor_fallback "hq" exFile2 (by decide) [] exWallFS (by decide)

/-- **C6 counterexample** — A persisted cache file that exists but does not
parse as JSON makes `load_cache` raise (`json.loads` runs outside any
`try`): the load comes back as the propagated error, not as the empty
cache the claim requires. -/
theorem C6_counterexample :
    load_cache ([] : WallCache) true none = Except.error () := rfl

/-- **C6 (amended)** — `load_cache` returns the empty cache only when no
persisted file exists; when the file exists, a successful read-and-parse
returns its contents, and an unreadable or corrupt file makes the read or
`json.loads` raise out of `load_cache` (it is not treated as a cache
miss). -/
theorem C6_load_cache_amended {α : Type} (emptyCache : α) (c : α)
    (parsed : Option α) :
    load_cache emptyCache false parsed = Except.ok emptyCache ∧
    load_cache emptyCache true (some c) = Except.ok c ∧
    load_cache emptyCache true none = Except.error () :=
  ⟨rfl, rfl, rfl⟩

/-- **C7 counterexample** — With a missing widgets base directory and an
empty in-memory cache (the state after startup when no persisted cache
exists either), the `/widgets` listing raises `KeyError` on
`metadata_caches["widgets"]["widgets"]` instead of returning an empty
record set. -/
theorem C7_counterexample :
    list_all_widgets none none = Except.error () := rfl

/-- **C7 (amended)** — With a missing base directory, widget reconciliation
returns without error and leaves the cache untouched; the listing then
succeeds only by serving whatever listing is already cached (possibly
stale), and fails with `KeyError` when the cache is empty — it never
synthesizes the empty-collection result. -/
theorem C7_missing_root_amended (cache : WidgetCache) (l : List WidgetRec)
    (lm : List (String × Int)) :
    update_widget_cache cache none = (cache, false) ∧
    list_all_widgets (some (l, lm)) none = Except.ok (l, some (l, lm)) ∧
    list_all_widgets none none = Except.error () :=
  ⟨rfl, rfl, rfl⟩

/-- **C8 counterexample** — widgets: deleting the whole `cat2` directory
leaves every *current* directory's timestamp matching the cached map (the
validity loop never looks at cached directories absent from the walk), so
reconciliation keeps the cache — which still binds a record for the
deleted `cat2/b.png` — violating "every key present in the in-memory
cache corresponds to a file that existed on disk at the most recent
reconciliation". -/
theorem C8_counterexample :
    update_widget_cache (update_widget_cache none exWidgetFSTwoDirs).1
        exWidgetFSDirDeleted =
      ((update_widget_cache none exWidgetFSTwoDirs).1, false) ∧
    (update_widget_cache none exWidgetFSTwoDirs).1 =
      some ([mkWidgetRec "cat1" "a.png", mkWidgetRec "cat2" "b.png"],
        [(".", 0), ("cat1", 5), ("cat2", 3)]) := by decide

/-- **C8 (amended)** — The cache-disk correspondence invariant holds for
the per-file wallpapers collection: after any reconciliation, every key
bound in the resulting cache is one of the current scan's keys, so no
record survives for a file already deleted when the reconciliation ran.
For the coarse widgets strategy the invariant can fail (see the
counterexample): stale records survive whenever the per-directory
validity check still passes. -/
theorem C8_cache_disk_correspondence (cache : WallCache) (fs : WallFS) :
    ∀ (k : String) (r : WallRecord),
      dictGet k (update_wallpaper_cache cache fs).1 = some r →
      k ∈ scanKeys fs := by
  intro k r h
  rw [update_wallpaper_fst] at h
  exact mem_scan_of_dictGet_mkAssets h

/-- Witness for the amended C8: the key of the concrete scanned file
`hq/cat/b.jpg` is recovered from its binding in the reconciled cache. -/
theorem C8_witness : "hq/cat/b.jpg" ∈ scanKeys exWallFS :=
  C8_cache_disk_correspondence [] exWallFS "hq/cat/b.jpg"
    (process_wallpaper "hq" exFile2).2 (by decide)

/-- **C9** — Modification frame property (wallpapers): starting from the
cache produced by reconciling `fs1`, reconcile the state `fs2` in which
the file `p` reappears under the same cache key with a different
modification time (`fNew`) while the distinct file `q` is unchanged.  The
modified file's key is in the `tasks` list (its metadata is re-extracted)
and its new record is the fresh `process_wallpaper` output; the unchanged
sibling's binding in the new cache is byte-for-byte the one of the
previous cache. -/
theorem C9_modification_frame (cache : WallCache) (fs1 fs2 : WallFS)
    (p q : String × WFile) (fNew : WFile)
    (hp1 : p ∈ scanWall fs1) (hq1 : q ∈ scanWall fs1)
    (hq2 : q ∈ scanWall fs2) (hp2 : (p.1, fNew) ∈ scanWall fs2)
    (hnd1 : (scanKeys fs1).Nodup) (hnd2 : (scanKeys fs2).Nodup)
    (hkey : wallKey p.1 fNew = wallKey p.1 p.2)
    (hmt : fNew.mtime ≠ p.2.mtime)
    (_hne : wallKey q.1 q.2 ≠ wallKey p.1 p.2) :
    wallKey p.1 p.2 ∈
      (update_wallpaper_cache (update_wallpaper_cache cache fs1).1 fs2).2 ∧
    dictGet (wallKey p.1 p.2)
        (update_wallpaper_cache
          (update_wallpaper_cache cache fs1).1 fs2).1 =
      some (process_wallpaper p.1 fNew).2 ∧
    dictGet (wallKey q.1 q.2)
        (update_wallpaper_cache
          (update_wallpaper_cache cache fs1).1 fs2).1 =
      dictGet (wallKey q.1 q.2) (update_wallpaper_cache cache fs1).1 := by
  have hc1p : dictGet (wallKey p.1 p.2) (mkAssets cache (scanWall fs1)) =
      some (recordFor cache p) := dictGet_mkAssets hnd1 p hp1
  have hhitNone :
      cacheHit (mkAssets cache (scanWall fs1)) p.1 fNew = none := by
    apply cacheHit_none_intro
    intro r hr
    rw [hkey, hc1p] at hr
    cases hr
    rw [recordFor_last_modified cache p]
    exact fun he => hmt he.symm
  have hstale : (p.1, fNew) ∈
      staleEntries (mkAssets cache (scanWall fs1)) (scanWall fs2) := by
    unfold staleEntries
    rw [List.mem_filter]
    exact ⟨hp2, by rw [hhitNone]; rfl⟩
  refine ⟨?_, ?_, ?_⟩
  · rw [update_wallpaper_fst, update_wallpaper_snd]
    exact List.mem_map.mpr ⟨(p.1, fNew), hstale, hkey⟩
  · rw [update_wallpaper_fst, update_wallpaper_fst]
    have hlook := @dictGet_mkAssets (mkAssets cache (scanWall fs1))
      (scanWall fs2) hnd2 (p.1, fNew) hp2
    rw [hkey] at hlook
    have hrec : recordFor (mkAssets cache (scanWall fs1)) (p.1, fNew) =
        (process_wallpaper p.1 fNew).2 := by
      unfold recordFor
      rw [hhitNone]
    rw [hlook, hrec]
  · rw [update_wallpaper_fst, update_wallpaper_fst]
    have hc1q : dictGet (wallKey q.1 q.2) (mkAssets cache (scanWall fs1)) =
        some (recordFor cache q) := dictGet_mkAssets hnd1 q hq1
    have hrecq : recordFor (mkAssets cache (scanWall fs1)) q =
        recordFor cache q := by
      unfold recordFor
      rw [cacheHit_mkAssets hnd1 hq1]
      rfl
    rw [dictGet_mkAssets hnd2 q hq2, hrecq, hc1q]

/-- Witness for C9: touching `a.png` (mtime 5 → 6) while `cat/b.jpg` is
untouched. -/
theorem C9_witness :
    wallKey "hq" exFile1 ∈
      (update_wallpaper_cache (update_wallpaper_cache [] exWallFS).1
        exWallFSTouched).2 ∧
    dictGet (wallKey "hq" exFile1)
        (update_wallpaper_cache (update_wallpaper_cache [] exWallFS).1
          exWallFSTouched).1 =
      some (process_wallpaper "hq" exFile1Touched).2 ∧
    dictGet (wallKey "hq" exFile2)
        (update_wallpaper_cache (update_wallpaper_cache [] exWallFS).1
          exWallFSTouched).1 =
      dictGet (wallKey "hq" exFile2) (update_wallpaper_cache [] exWallFS).1 :=
  C9_modification_frame [] exWallFS exWallFSTouched ("hq", exFile1)
    ("hq", exFile2) exFile1Touched (by decide) (by decide) (by decide)
    (by decide) (by decide) (by decide) (by decide) (by decide) (by decide)

/-- **C10** — Widgets listing shape: a record is listed exactly when it
comes from an accepted-extension file of a walked directory other than the
base directory itself (`relpath "."` is skipped), its `category` being that
directory's relative path; and its `type` field is `'kwgt'` exactly when
the filename ends in `.kwgt` and `'image'` otherwise (the two literals
being distinct). -/
theorem C10_widget_listing (dirs : List WDir) (rec : WidgetRec) :
    (rec ∈ buildWidgetList dirs ↔
      ∃ d ∈ dirs, d.cat ≠ "." ∧ ∃ nf ∈ d.files,
        hasExt widgetFileTypes nf.1 = true ∧ rec = mkWidgetRec d.cat nf.1) ∧
    (rec ∈ buildWidgetList dirs →
        rec.ftype =
          (if strEndsWith rec.name ".kwgt" then "kwgt" else "image")) ∧
    ("kwgt" : String) ≠ "image" := by
  refine ⟨mem_buildWidgetList, ?_, by decide⟩
  intro hrec
  rcases mem_buildWidgetList.mp hrec with ⟨d', _, _, nf, _, _, hrec'⟩
  subst hrec'
  rfl

/-- Witness for C10 on a concrete walk holding a base-directory file and a
categorized `.kwgt` file. -/
theorem C10_witness :
    (mkWidgetRec "cat" "w.kwgt" ∈
        buildWidgetList [⟨".", [("root.png", 1)]⟩, ⟨"cat", [("w.kwgt", 1)]⟩] ↔
      ∃ d ∈ [(⟨".", [("root.png", 1)]⟩ : WDir), ⟨"cat", [("w.kwgt", 1)]⟩],
        d.cat ≠ "." ∧ ∃ nf ∈ d.files,
          hasExt widgetFileTypes nf.1 = true ∧
          mkWidgetRec "cat" "w.kwgt" = mkWidgetRec d.cat nf.1) ∧
    (mkWidgetRec "cat" "w.kwgt" ∈
        buildWidgetList [⟨".", [("root.png", 1)]⟩, ⟨"cat", [("w.kwgt", 1)]⟩] →
        (mkWidgetRec "cat" "w.kwgt").ftype =
          (if strEndsWith (mkWidgetRec "cat" "w.kwgt").name ".kwgt" then
            "kwgt" else "image")) ∧
    ("kwgt" : String) ≠ "image" :=
  C10_widget_listing [⟨".", [("root.png", 1)]⟩, ⟨"cat", [("w.kwgt", 1)]⟩]
    (mkWidgetRec "cat" "w.kwgt")

end Flexify
